import Mathlib

/-!
CPlaylistData (xbmc/FileSystem/FilePlaylist.h)

A shallow embedding of the inline member functions of `XFILE::CPlaylistData`
and theorems about them.

Conventions of the embedding

* `int` members are `Int`.  The only arithmetic on them is `size() - 1` and
  `m_playlistLastPos++` under the loop guard `m_playlistLastPos < Size()`;
  neither can leave the `int` range, because `size()` is a non-negative `int`.
  What `atoi` returns is an `int`: the number it reads is reduced to 32 bits.
* `unsigned long` values (what `GetPropertyULong` returns) are `Nat`.  The
  accessors declared `unsigned int` (`FirstSequenceNo`, `LastSequenceNo`,
  `CurrentSequenceNo`) convert with `% 2 ^ 32`.  The `unsigned int` argument
  of `SetPosition` is a `Nat`; the theorems hold for every `Nat`, so for every
  value below `2 ^ 32`.  The comparison `currentSequenceNo >= sequenceNo` is
  made at `unsigned long`, on the values themselves.
* A `CFileItemPtr` is an `Option CFileItem`; `none` is the null pointer.
  A member function that dereferences a `CFileItemPtr` returns an `Option`:
  `none` stands for the dereference of a null pointer.
* `m_playList->Load(m_playlistPath)` is a call into the playlist object, which
  lives outside this header.  It appears as a function
  `String → CPlayList → Bool × CPlayList`: the returned flag and the playlist
  object as the call leaves it.
-/

namespace XFILE

/-! ## Collaborators declared outside the header -/

/-- Modelled from the spec: the class `CFileItem` (a segment descriptor) is
declared outside `FilePlaylist.h`.  The header reads three of its properties:
the sequence number through `GetPropertyULong`, and the target duration and
start date as text through `GetProperty`.  A text property may be absent. -/
structure CFileItem where
  playlistSequenceNo : Nat
  targetDurationInSec : Option String
  startDate : Option String
deriving DecidableEq, Repr

/-- Modelled from the spec: `CFileItem::GetPropertyULong(key)`, declared
outside the header; the `unsigned long` stored under `key`, 0 for a key this
model does not hold. -/
def CFileItem.GetPropertyULong (item : CFileItem) (key : String) : Nat :=
  if key = "m3u8-playlistSequenceNo" then item.playlistSequenceNo else 0

/-- Modelled from the spec: `CFileItem::GetProperty(key)`, declared outside
the header; the text stored under `key`, the empty string when absent. -/
def CFileItem.GetProperty (item : CFileItem) (key : String) : String :=
  if key = "m3u8-targetDurationInSec" then item.targetDurationInSec.getD ""
  else if key = "m3u8-startDate" then item.startDate.getD ""
  else ""

/-- Modelled from the spec: the class `PLAYLIST::CPlayList` is declared
outside the header (`PlayList.h`).  It holds the ordered descriptor list and
the growth flag that `CanAdd()` reports. -/
structure CPlayList where
  items : List CFileItem
  canAdd : Bool
deriving DecidableEq, Repr

/-- Modelled from the spec: `CPlayList::size()`, the number of descriptors.
It is taken to be a signed `int`, as `IsEmpty()` (`size() <= 0`) treats it, so
that `size() - 1` is `-1` on an empty list. -/
def CPlayList.size (p : CPlayList) : Int := p.items.length

/-- Modelled from the spec: `CPlayList::CanAdd()`, the opaque growth flag. -/
def CPlayList.CanAdd (p : CPlayList) : Bool := p.canAdd

/-- Modelled from the spec: `CPlayList::operator[]`, the descriptor at index
`i`; the callers in the header only pass indices within `[0, size())`. -/
def CPlayList.at (p : CPlayList) (i : Int) : Option CFileItem :=
  if 0 ≤ i then p.items[i.toNat]? else none

/-- C library `isspace` in the C locale. -/
def isspace (c : Char) : Bool :=
  c = ' ' || c = '\t' || c = '\n' || c = '\r' || c.toNat = 11 || c.toNat = 12

/-- The decimal digits at the head of `cs`, accumulated onto `acc`. -/
def atoiDigits : List Char → Nat → Nat
  | [], acc => acc
  | c :: cs, acc =>
    if c.isDigit then atoiDigits cs (acc * 10 + (c.toNat - '0'.toNat)) else acc

/-- The number at the head of `s` as the C library reads it in base 10: leading
white space is skipped, then an optional sign and the longest run of decimal
digits are read; 0 when there is no digit.  No range limit is applied here. -/
def headNumber (s : String) : Int :=
  match s.toList.dropWhile isspace with
  | '-' :: cs => - (atoiDigits cs 0 : Int)
  | '+' :: cs => (atoiDigits cs 0 : Int)
  | cs => (atoiDigits cs 0 : Int)

/-- C library `strtol(s, NULL, 10)` with a 64-bit `long`: the number at the
head of `s`, held to `[LONG_MIN, LONG_MAX]`. -/
def strtol (s : String) : Int :=
  max (-(2 : Int) ^ 63) (min (headNumber s) ((2 : Int) ^ 63 - 1))

/-- The conversion of an integer to `int`: 32 bits, two's complement. -/
def toInt32 (v : Int) : Int :=
  (v + (2 : Int) ^ 31) % (2 : Int) ^ 32 - (2 : Int) ^ 31

/-- C library `atoi`, which the GNU C library defines as
`(int) strtol(s, NULL, 10)`: a number outside the range of `int` wraps. -/
def atoi (s : String) : Int :=
  toInt32 (strtol s)

/-! ## CPlaylistData -/

/-- The data members of `CPlaylistData`; `m_playList` is the pointed-to
playlist object. -/
structure CPlaylistData where
  m_playlistBandwidth : Int
  m_playlistLastPos : Int
  m_targetDuration : Int
  m_startDate : Int
  m_playlistPath : String
  m_playList : CPlayList
deriving DecidableEq, Repr

namespace CPlaylistData

/-- `IsLoaded()`. -/
def IsLoaded (d : CPlaylistData) : Bool :=
  decide (d.m_playlistLastPos ≥ 0)

/-- `HasPendingSegments()`. -/
def HasPendingSegments (d : CPlaylistData) : Bool :=
  decide (d.m_playlistLastPos < d.m_playList.size - 1)

/-- `IsFinished()`. -/
def IsFinished (d : CPlaylistData) : Bool :=
  !d.HasPendingSegments && !d.m_playList.CanAdd

/-- `IsEmpty()`. -/
def IsEmpty (d : CPlaylistData) : Bool :=
  decide (d.m_playList.size ≤ 0)

/-- `Size()`. -/
def Size (d : CPlaylistData) : Int := d.m_playList.size

/-- `FirstItem()`. -/
def FirstItem (d : CPlaylistData) : Option CFileItem :=
  if d.Size ≠ 0 then d.m_playList.at 0 else none

/-- `LastItem()`. -/
def LastItem (d : CPlaylistData) : Option CFileItem :=
  if d.Size ≠ 0 then d.m_playList.at (d.Size - 1) else none

/-- `CurrentItem()`. -/
def CurrentItem (d : CPlaylistData) : Option CFileItem :=
  if d.m_playlistLastPos < d.Size ∧ d.m_playlistLastPos ≥ 0 then
    d.m_playList.at d.m_playlistLastPos
  else none

/-- `FirstSequenceNo()`, an `unsigned int`. -/
def FirstSequenceNo (d : CPlaylistData) : Nat :=
  match d.FirstItem with
  | some item => item.GetPropertyULong "m3u8-playlistSequenceNo" % 2 ^ 32
  | none => 0

/-- `LastSequenceNo()`, an `unsigned int`. -/
def LastSequenceNo (d : CPlaylistData) : Nat :=
  match d.LastItem with
  | some item => item.GetPropertyULong "m3u8-playlistSequenceNo" % 2 ^ 32
  | none => 0

/-- `CurrentSequenceNo()`, an `unsigned int`. -/
def CurrentSequenceNo (d : CPlaylistData) : Nat :=
  match d.CurrentItem with
  | some item => item.GetPropertyULong "m3u8-playlistSequenceNo" % 2 ^ 32
  | none => 0

/-- `Load()`.  `load` is `m_playList->Load`; `none` is the dereference of a
null `FirstItem()`. -/
def Load (load : String → CPlayList → Bool × CPlayList) (d : CPlaylistData) :
    Option (Bool × CPlaylistData) :=
  if d.IsFinished then some (false, d)
  else
    let r := load d.m_playlistPath d.m_playList
    let d1 := { d with m_playList := r.2 }
    if !r.1 then some (false, d1)
    else
      let d2 := { d1 with m_playlistLastPos := 0 }
      if d2.Size ≠ 0 then
        match d2.FirstItem with
        | none => none
        | some first =>
          let d3 := { d2 with
            m_targetDuration := atoi (first.GetProperty "m3u8-targetDurationInSec") }
          match d3.FirstItem with
          | none => none
          | some first3 =>
            some (true, { d3 with
              m_startDate := atoi (first3.GetProperty "m3u8-startDate") })
      else some (true, d2)

/-- The `while` loop of `SetPosition`, entered at the state `d`. -/
def SetPosition.scan (sequenceNo : Nat) (d : CPlaylistData) :
    Option (Bool × CPlaylistData) :=
  if d.m_playlistLastPos < d.Size then
    match d.CurrentItem with
    | none => none
    | some item =>
      let currentSequenceNo := item.GetPropertyULong "m3u8-playlistSequenceNo"
      if currentSequenceNo ≥ sequenceNo then some (true, d)
      else SetPosition.scan sequenceNo
        { d with m_playlistLastPos := d.m_playlistLastPos + 1 }
  else some (false, d)
termination_by (d.Size - d.m_playlistLastPos).toNat
decreasing_by
  simp only [Size] at *
  omega

/-- `SetPosition(sequenceNo)`; `none` is the dereference of a null
`CurrentItem()` inside the loop. -/
def SetPosition (d : CPlaylistData) (sequenceNo : Nat) :
    Option (Bool × CPlaylistData) :=
  if sequenceNo > d.LastSequenceNo then some (false, d)
  else SetPosition.scan sequenceNo { d with m_playlistLastPos := 0 }

end CPlaylistData


/-- The number of times the body of the `while` loop of `SetPosition` is
entered when the loop starts at the state `d`. -/
def CPlaylistData.SetPosition.iterations (sequenceNo : Nat) (d : CPlaylistData) : Nat :=
  if d.m_playlistLastPos < d.Size then
    match d.CurrentItem with
    | none => 1
    | some item =>
      let currentSequenceNo := item.GetPropertyULong "m3u8-playlistSequenceNo"
      if currentSequenceNo ≥ sequenceNo then 1
      else 1 + CPlaylistData.SetPosition.iterations sequenceNo
        { d with m_playlistLastPos := d.m_playlistLastPos + 1 }
  else 0
termination_by (d.Size - d.m_playlistLastPos).toNat
decreasing_by
  simp only [CPlaylistData.Size] at *
  omega

/-! ## Sequences of calls -/

/-- One call on a `CPlaylistData` object: `Load()` together with the behaviour
of `m_playList->Load` during that call, or `SetPosition(sequenceNo)`. -/
inductive Call where
  | Load (load : String → CPlayList → Bool × CPlayList)
  | SetPosition (sequenceNo : Nat)

/-- The object after one call; `none` when the call dereferences a null
pointer. -/
def step (d : CPlaylistData) : Call → Option CPlaylistData
  | Call.Load load => (d.Load load).map Prod.snd
  | Call.SetPosition sequenceNo => (d.SetPosition sequenceNo).map Prod.snd

/-- The object after a sequence of calls, made in list order. -/
def run (d : CPlaylistData) : List Call → Option CPlaylistData
  | [] => some d
  | c :: cs => (step d c).bind fun d1 => run d1 cs

/-- The position invariant in the words of the specification: the cursor is
the unloaded sentinel or an index within `[0, Size())`. -/
def PositionInvariant (d : CPlaylistData) : Prop :=
  d.m_playlistLastPos = -1 ∨ (0 ≤ d.m_playlistLastPos ∧ d.m_playlistLastPos < d.Size)

instance (d : CPlaylistData) : Decidable (PositionInvariant d) := by
  unfold PositionInvariant
  infer_instance

/-- The position invariant the code keeps: the specification's, or the cursor
is 0 on an empty descriptor list. -/
def PositionInvariantOrEmpty (d : CPlaylistData) : Prop :=
  PositionInvariant d ∨ (d.m_playlistLastPos = 0 ∧ d.Size = 0)

instance (d : CPlaylistData) : Decidable (PositionInvariantOrEmpty d) := by
  unfold PositionInvariantOrEmpty
  infer_instance

/-- The condition on a parser call that fails.  When the call `c`, made on the
object `d`, is a `Load()` that reaches `m_playList->Load`, the parser returns
false and the cursor is at index 1 or more, the descriptor list the parser
leaves still reaches beyond the cursor. -/
def Call.FailedLoadKeepsCursor (d : CPlaylistData) : Call → Prop
  | Call.Load load =>
    d.IsFinished = false → (load d.m_playlistPath d.m_playList).1 = false →
      1 ≤ d.m_playlistLastPos →
      d.m_playlistLastPos < (load d.m_playlistPath d.m_playList).2.size
  | Call.SetPosition _ => True

/-- Every call of the sequence `calls`, made in list order from the object
`d`, satisfies `Call.FailedLoadKeepsCursor` on the object it is made on. -/
def FailedLoadsKeepCursor (d : CPlaylistData) : List Call → Prop
  | [] => True
  | c :: cs =>
    c.FailedLoadKeepsCursor d ∧
      match step d c with
      | some d1 => FailedLoadsKeepCursor d1 cs
      | none => True

/-! ## Concrete playlists used as examples -/

/-- A descriptor with sequence number `sequenceNo` and no text property. -/
def segment (sequenceNo : Nat) : CFileItem :=
  { playlistSequenceNo := sequenceNo, targetDurationInSec := none, startDate := none }

/-- An object with cursor `pos` over descriptors with the sequence numbers
`seqs` and growth flag `canAdd`. -/
def playlistData (pos : Int) (seqs : List Nat) (canAdd : Bool) : CPlaylistData :=
  { m_playlistBandwidth := 0, m_playlistLastPos := pos, m_targetDuration := 0,
    m_startDate := 0, m_playlistPath := "",
    m_playList := { items := seqs.map segment, canAdd := canAdd } }

/-- A descriptor with sequence number `sequenceNo` and the given texts of its
target duration and start date properties. -/
def segmentWith (sequenceNo : Nat) (targetDurationInSec startDate : Option String) :
    CFileItem :=
  { playlistSequenceNo := sequenceNo, targetDurationInSec := targetDurationInSec,
    startDate := startDate }

/-! ## Integer texts, in the words of the specification -/

/-- The number a run of decimal digits denotes, most significant digit
first. -/
def decimalValue (ds : List Char) : Nat :=
  ds.foldl (fun acc c => acc * 10 + (c.toNat - '0'.toNat)) 0

/-- The text `cs` is a well-formed integer of value `v`: an optional sign
followed by one or more decimal digits and nothing else, with `v` in the range
of `int`. -/
def IsIntegerText (cs : List Char) (v : Int) : Prop :=
  (-(2 : Int) ^ 31 ≤ v ∧ v < 2 ^ 31) ∧
  ∃ ds : List Char, ds ≠ [] ∧ (∀ c ∈ ds, c.isDigit = true) ∧
    ((cs = ds ∧ v = (decimalValue ds : Int)) ∨
     (cs = '+' :: ds ∧ v = (decimalValue ds : Int)) ∨
     (cs = '-' :: ds ∧ v = -(decimalValue ds : Int)))

/-- The text `cs` has no number at its head: after its leading white space
`ws` and at most one sign, it ends or goes on with a character that is not a
decimal digit.  (Without a sign that character is not white space and not a
sign either: `ws` is all the leading white space, and a sign would be read.) -/
def StartsWithoutNumber (cs : List Char) : Prop :=
  ∃ ws sign tail : List Char, cs = ws ++ sign ++ tail ∧
    (∀ c ∈ ws, isspace c = true) ∧
    (sign = [] ∨ sign = ['+'] ∨ sign = ['-']) ∧
    (∀ c rest, tail = c :: rest →
      c.isDigit = false ∧ (sign = [] → isspace c = false ∧ c ≠ '+' ∧ c ≠ '-'))

/-! ## Auxiliary lemmas -/

theorem GetPropertyULong_sequenceNo (item : CFileItem) :
    item.GetPropertyULong "m3u8-playlistSequenceNo" = item.playlistSequenceNo := by
  simp [CFileItem.GetPropertyULong]

theorem at_eq_some_iff (p : CPlayList) (i : Int) (item : CFileItem) :
    p.at i = some item ↔ 0 ≤ i ∧ p.items[i.toNat]? = some item := by
  unfold CPlayList.at
  split <;> simp [*]

theorem at_isSome (p : CPlayList) (i : Int) (h0 : 0 ≤ i) (h1 : i < p.size) :
    ∃ item, p.at i = some item := by
  unfold CPlayList.size at h1
  have h : i.toNat < p.items.length := by omega
  exact ⟨p.items[i.toNat], by simp [CPlayList.at, h0, List.getElem?_eq_getElem h]⟩

/-- What the `while` loop of `SetPosition` does from a non-negative cursor: it
ends, moves the cursor forward to `p`, touches nothing else, skips only
descriptors below `sequenceNo`, and says `true` exactly when it stops on a
descriptor that is at least `sequenceNo`. -/
theorem scan_spec (sequenceNo : Nat) (k : Nat) :
    ∀ d : CPlaylistData, 0 ≤ d.m_playlistLastPos →
      (d.Size - d.m_playlistLastPos).toNat = k →
      ∃ (b : Bool) (p : Int),
        CPlaylistData.SetPosition.scan sequenceNo d
            = some (b, { d with m_playlistLastPos := p }) ∧
        d.m_playlistLastPos ≤ p ∧
        (b = true → p < d.Size ∧ ∃ item, d.m_playList.at p = some item ∧
          sequenceNo ≤ item.playlistSequenceNo) ∧
        (b = false → p = max d.m_playlistLastPos d.Size) ∧
        (∀ (j : Int) (item : CFileItem), d.m_playlistLastPos ≤ j → j < p →
          d.m_playList.at j = some item → item.playlistSequenceNo < sequenceNo) := by
  induction k with
  | zero =>
    intro d h0 hk
    have hge : ¬ d.m_playlistLastPos < d.Size := by omega
    refine ⟨false, d.m_playlistLastPos, ?_, le_refl _, by simp, ?_, ?_⟩
    · rw [CPlaylistData.SetPosition.scan]
      simp [hge]
    · intro _
      omega
    · intro j item h1 h2
      omega
  | succ k ih =>
    intro d h0 hk
    have hlt : d.m_playlistLastPos < d.Size := by omega
    obtain ⟨item, hitem⟩ := at_isSome d.m_playList d.m_playlistLastPos h0 hlt
    have hcur : d.CurrentItem = some item := by
      simp [CPlaylistData.CurrentItem, hlt, h0, hitem]
    by_cases hseq : sequenceNo ≤ item.playlistSequenceNo
    · refine ⟨true, d.m_playlistLastPos, ?_, le_refl _, ?_, by simp, ?_⟩
      · rw [CPlaylistData.SetPosition.scan]
        simp [hlt, hcur, GetPropertyULong_sequenceNo, hseq]
      · intro _
        exact ⟨hlt, item, hitem, hseq⟩
      · intro j item h1 h2
        omega
    · obtain ⟨b, p, hscan, hle, htrue, hfalse, hskip⟩ :=
        ih { d with m_playlistLastPos := d.m_playlistLastPos + 1 }
          (by simp only; omega) (by simp only [CPlaylistData.Size] at *; omega)
      refine ⟨b, p, ?_, ?_, ?_, ?_, ?_⟩
      · rw [CPlaylistData.SetPosition.scan]
        simp [hlt, hcur, GetPropertyULong_sequenceNo, hseq]
        exact hscan
      · simp only at hle
        omega
      · exact htrue
      · intro hb
        have := hfalse hb
        simp only [CPlaylistData.Size] at this hlt ⊢
        omega
      · intro j item1 h1 h2 hj
        by_cases hjeq : j = d.m_playlistLastPos
        · subst hjeq
          rw [hitem] at hj
          cases hj
          omega
        · exact hskip j item1 (by simp only; omega) h2 hj

theorem lastSequenceNo_of_empty (d : CPlaylistData) (h : d.Size = 0) :
    d.LastSequenceNo = 0 := by
  simp [CPlaylistData.LastSequenceNo, CPlaylistData.LastItem, h]

theorem lastSequenceNo_of_nonempty (d : CPlaylistData) (h : d.Size ≠ 0) :
    ∃ item, d.m_playList.at (d.Size - 1) = some item ∧
      d.LastSequenceNo = item.playlistSequenceNo % 2 ^ 32 := by
  have hpos : 0 < d.Size := by
    simp only [CPlaylistData.Size, CPlayList.size] at h ⊢
    omega
  obtain ⟨item, hitem⟩ := at_isSome d.m_playList (d.Size - 1) (by omega)
    (by simp only [CPlaylistData.Size]; omega)
  refine ⟨item, hitem, ?_⟩
  simp [CPlaylistData.LastSequenceNo, CPlaylistData.LastItem, h, hitem,
    GetPropertyULong_sequenceNo]

/-- A call of `SetPosition` whose target passes the range guard: the scan
starts at index 0, ends, and fails only on an empty descriptor list. -/
theorem setPosition_in_range (d : CPlaylistData) (sequenceNo : Nat)
    (h : sequenceNo ≤ d.LastSequenceNo) :
    ∃ (b : Bool) (p : Int),
      d.SetPosition sequenceNo = some (b, { d with m_playlistLastPos := p }) ∧
      0 ≤ p ∧
      (b = true → p < d.Size ∧ ∃ item, d.m_playList.at p = some item ∧
        sequenceNo ≤ item.playlistSequenceNo) ∧
      (b = false → p = 0 ∧ d.Size = 0) ∧
      (∀ (j : Int) (item : CFileItem), j < p →
        d.m_playList.at j = some item → item.playlistSequenceNo < sequenceNo) := by
  obtain ⟨b, p, hscan, hle, htrue, hfalse, hskip⟩ :=
    scan_spec sequenceNo _ { d with m_playlistLastPos := 0 } (le_refl _) rfl
  have hsize : (0 : Int) ≤ d.Size := by
    simp only [CPlaylistData.Size, CPlayList.size]
    omega
  have hskip0 : ∀ (j : Int) (item : CFileItem), j < p →
      d.m_playList.at j = some item → item.playlistSequenceNo < sequenceNo := by
    intro j item hj hat
    exact hskip j item ((at_eq_some_iff _ _ _).1 hat).1 hj hat
  refine ⟨b, p, ?_, hle, htrue, ?_, hskip0⟩
  · simp only [CPlaylistData.SetPosition, not_lt.mpr h, if_false]
    exact hscan
  · intro hb
    have hp : p = d.Size := by
      have := hfalse hb
      simp only [CPlaylistData.Size] at this hsize ⊢
      omega
    by_cases hne : d.Size = 0
    · exact ⟨by omega, hne⟩
    · exfalso
      obtain ⟨item, hitem, hlast⟩ := lastSequenceNo_of_nonempty d hne
      have h1 := hskip0 (d.Size - 1) item (by omega) hitem
      have h2 : item.playlistSequenceNo % 2 ^ 32 ≤ item.playlistSequenceNo :=
        Nat.mod_le _ _
      omega

/-- A call of `SetPosition` whose target fails the range guard. -/
theorem setPosition_out_of_range (d : CPlaylistData) (sequenceNo : Nat)
    (h : d.LastSequenceNo < sequenceNo) :
    d.SetPosition sequenceNo = some (false, d) := by
  simp [CPlaylistData.SetPosition, h]

theorem firstItem_of_nonempty (d : CPlaylistData) (h : d.Size ≠ 0) :
    ∃ item, d.FirstItem = some item := by
  have hpos : 0 < d.Size := by
    simp only [CPlaylistData.Size, CPlayList.size] at h ⊢
    omega
  obtain ⟨item, hitem⟩ := at_isSome d.m_playList 0 (le_refl _)
    (by simp only [CPlaylistData.Size] at hpos; exact hpos)
  exact ⟨item, by simp [CPlaylistData.FirstItem, h, hitem]⟩

/-- `Load()` on a finished playlist. -/
theorem load_finished (load : String → CPlayList → Bool × CPlayList)
    (d : CPlaylistData) (h : d.IsFinished = true) :
    d.Load load = some (false, d) := by
  simp [CPlaylistData.Load, h]

/-- `Load()` when `m_playList->Load` is reached and returns false. -/
theorem load_rejected (load : String → CPlayList → Bool × CPlayList)
    (d : CPlaylistData) (h : d.IsFinished = false)
    (hr : (load d.m_playlistPath d.m_playList).1 = false) :
    d.Load load
      = some (false, { d with m_playList := (load d.m_playlistPath d.m_playList).2 }) := by
  simp [CPlaylistData.Load, h, hr]

/-- `Load()` when `m_playList->Load` is reached and returns true. -/
theorem load_accepted (load : String → CPlayList → Bool × CPlayList)
    (d : CPlaylistData) (h : d.IsFinished = false)
    (hr : (load d.m_playlistPath d.m_playList).1 = true) :
    ∃ (targetDuration startDate : Int),
      d.Load load = some (true,
        { d with
          m_playList := (load d.m_playlistPath d.m_playList).2
          m_playlistLastPos := 0
          m_targetDuration := targetDuration
          m_startDate := startDate }) := by
  by_cases hsize : (load d.m_playlistPath d.m_playList).2.size = 0
  · exact ⟨d.m_targetDuration, d.m_startDate, by
      simp [CPlaylistData.Load, h, hr, CPlaylistData.Size, hsize]⟩
  · obtain ⟨first, hfirst⟩ := firstItem_of_nonempty
      { d with
        m_playList := (load d.m_playlistPath d.m_playList).2
        m_playlistLastPos := 0 } hsize
    simp only [CPlaylistData.FirstItem, CPlaylistData.Size, ne_eq, hsize,
      not_false_eq_true, if_true] at hfirst
    exact ⟨atoi (first.GetProperty "m3u8-targetDurationInSec"),
      atoi (first.GetProperty "m3u8-startDate"), by
      simp [CPlaylistData.Load, h, hr, CPlaylistData.Size, hsize,
        CPlaylistData.FirstItem, hfirst]⟩

/-- Every call keeps `PositionInvariantOrEmpty`, and returns, provided a
parser call that fails leaves the list reaching beyond a cursor at index 1 or
more. -/
theorem step_keeps_invariant (d : CPlaylistData) (c : Call)
    (hinv : PositionInvariantOrEmpty d) (hc : c.FailedLoadKeepsCursor d) :
    ∃ d1, step d c = some d1 ∧ PositionInvariantOrEmpty d1 := by
  have hsize : (0 : Int) ≤ d.Size := by
    simp only [CPlaylistData.Size, CPlayList.size]
    omega
  cases c with
  | Load load =>
    cases hfin : d.IsFinished with
    | true => exact ⟨d, by rw [step, load_finished load d hfin]; rfl, hinv⟩
    | false =>
      cases hr : (load d.m_playlistPath d.m_playList).1 with
      | false =>
        have hlen := hc hfin hr
        refine ⟨_, by rw [step, load_rejected load d hfin hr]; rfl, ?_⟩
        simp only [PositionInvariantOrEmpty, PositionInvariant, CPlaylistData.Size,
          CPlayList.size] at hinv hlen ⊢
        omega
      | true =>
        obtain ⟨td, sd, heq⟩ := load_accepted load d hfin hr
        refine ⟨_, by rw [step, heq]; rfl, ?_⟩
        simp only [PositionInvariantOrEmpty, PositionInvariant, CPlaylistData.Size,
          CPlayList.size, true_and]
        omega
  | SetPosition sequenceNo =>
    by_cases hguard : d.LastSequenceNo < sequenceNo
    · exact ⟨d, by rw [step, setPosition_out_of_range d sequenceNo hguard]; rfl, hinv⟩
    · obtain ⟨b, p, heq, hp, htrue, hfalse, -⟩ :=
        setPosition_in_range d sequenceNo (not_lt.mp hguard)
      refine ⟨_, by rw [step, heq]; rfl, ?_⟩
      simp only [PositionInvariantOrEmpty, PositionInvariant, CPlaylistData.Size]
      cases b with
      | true =>
        have := (htrue rfl).1
        simp only [CPlaylistData.Size] at this
        omega
      | false =>
        have := hfalse rfl
        simp only [CPlaylistData.Size] at this
        omega

/-- A sequence of calls keeps `PositionInvariantOrEmpty`, and returns, provided
each parser call in it that fails leaves the list reaching beyond a cursor at
index 1 or more. -/
theorem run_keeps_invariant (calls : List Call) :
    ∀ d : CPlaylistData, PositionInvariantOrEmpty d →
      FailedLoadsKeepCursor d calls →
      ∃ d1, run d calls = some d1 ∧ PositionInvariantOrEmpty d1 := by
  induction calls with
  | nil =>
    intro d hinv _
    exact ⟨d, rfl, hinv⟩
  | cons c cs ih =>
    intro d hinv hkeep
    obtain ⟨hc, hrest⟩ := hkeep
    obtain ⟨d1, hstep, hinv1⟩ := step_keeps_invariant d c hinv hc
    rw [hstep] at hrest
    obtain ⟨d2, hrun, hinv2⟩ := ih d1 hinv1 hrest
    exact ⟨d2, by simp [run, hstep, hrun], hinv2⟩

/-- A sequence of `SetPosition` calls has no parser call in it. -/
theorem setPosition_calls_keep_cursor (targets : List Nat) :
    ∀ d : CPlaylistData, FailedLoadsKeepCursor d (targets.map Call.SetPosition) := by
  induction targets with
  | nil =>
    intro d
    exact True.intro
  | cons t ts ih =>
    intro d
    refine ⟨True.intro, ?_⟩
    cases step d (Call.SetPosition t) with
    | none => exact True.intro
    | some d1 => exact ih d1

/-! ## SetPosition -/

/-- C1: if `SetPosition(sequenceNo)` returns true, only the cursor has changed
and it is at the first index, in list order, whose sequence number is at least
`sequenceNo`: the cursor is within `[0, Size())`, the descriptor at the cursor
has a sequence number at least `sequenceNo`, and every descriptor at a smaller
index has a sequence number below `sequenceNo`.  This holds for any descriptor
list and any prior cursor. -/
theorem SetPosition_true_first_match (d d' : CPlaylistData) (sequenceNo : Nat)
    (h : d.SetPosition sequenceNo = some (true, d')) :
    d' = { d with m_playlistLastPos := d'.m_playlistLastPos } ∧
    0 ≤ d'.m_playlistLastPos ∧ d'.m_playlistLastPos < d'.Size ∧
    (∃ item, d'.CurrentItem = some item ∧ sequenceNo ≤ item.playlistSequenceNo) ∧
    (∀ (j : Int) (item : CFileItem), j < d'.m_playlistLastPos →
      d'.m_playList.at j = some item → item.playlistSequenceNo < sequenceNo) := by
  by_cases hguard : d.LastSequenceNo < sequenceNo
  · rw [setPosition_out_of_range d sequenceNo hguard] at h
    simp at h
  · obtain ⟨b, p, heq, hp, htrue, -, hskip⟩ :=
      setPosition_in_range d sequenceNo (not_lt.mp hguard)
    rw [heq] at h
    simp only [Option.some.injEq, Prod.mk.injEq] at h
    obtain ⟨hb, hd⟩ := h
    subst hd
    obtain ⟨hlt, item, hitem, hseq⟩ := htrue hb
    refine ⟨rfl, hp, hlt, ⟨item, ?_, hseq⟩, hskip⟩
    simp only [CPlaylistData.Size] at hlt
    simp [CPlaylistData.CurrentItem, CPlaylistData.Size, hlt, hp, hitem]

/-- Witness of C1: on the sequence numbers 1, 2, 5, 7 the target 3 puts the
cursor on index 2. -/
theorem SetPosition_true_first_match_witness :
    (playlistData (-1) [1, 2, 5, 7] false).SetPosition 3
      = some (true, playlistData 2 [1, 2, 5, 7] false) ∧
    (0 : Int) ≤ (playlistData 2 [1, 2, 5, 7] false).m_playlistLastPos ∧
    (playlistData 2 [1, 2, 5, 7] false).m_playlistLastPos
      < (playlistData 2 [1, 2, 5, 7] false).Size ∧
    (∃ item, (playlistData 2 [1, 2, 5, 7] false).CurrentItem = some item ∧
      3 ≤ item.playlistSequenceNo) :=
  have h : (playlistData (-1) [1, 2, 5, 7] false).SetPosition 3
      = some (true, playlistData 2 [1, 2, 5, 7] false) := by decide!
  have t := SetPosition_true_first_match _ _ 3 h
  ⟨h, t.2.1, t.2.2.1, t.2.2.2.1⟩

/-- C2: a target above `LastSequenceNo()` makes `SetPosition` return false and
leaves the whole object, the cursor included, as it was; and `LastSequenceNo()`
is 0 on an empty descriptor list. -/
theorem SetPosition_beyond_last_fails (d : CPlaylistData) (sequenceNo : Nat) :
    (d.Size = 0 → d.LastSequenceNo = 0) ∧
    (d.LastSequenceNo < sequenceNo →
      d.SetPosition sequenceNo = some (false, d) ∧
      ∀ d', d.SetPosition sequenceNo = some (false, d') →
        d'.m_playlistLastPos = d.m_playlistLastPos) := by
  refine ⟨lastSequenceNo_of_empty d, fun h => ?_⟩
  have heq := setPosition_out_of_range d sequenceNo h
  refine ⟨heq, fun d' hd' => ?_⟩
  rw [heq] at hd'
  simp only [Option.some.injEq, Prod.mk.injEq, true_and] at hd'
  rw [hd']

/-- Witness of C2: the last sequence number is 7 and the target is 8, with the
cursor on index 1; and an empty list. -/
theorem SetPosition_beyond_last_fails_witness :
    ((playlistData (-1) [] false).Size = 0 ∧
      (playlistData (-1) [] false).LastSequenceNo = 0) ∧
    ((playlistData 1 [1, 2, 5, 7] false).LastSequenceNo < 8 ∧
      (playlistData 1 [1, 2, 5, 7] false).SetPosition 8
        = some (false, playlistData 1 [1, 2, 5, 7] false)) :=
  ⟨⟨by decide,
    (SetPosition_beyond_last_fails (playlistData (-1) [] false) 0).1 (by decide)⟩,
   ⟨by decide,
    ((SetPosition_beyond_last_fails (playlistData 1 [1, 2, 5, 7] false) 8).2
      (by decide)).1⟩⟩

/-- Counterexample to C3 as stated: on an empty descriptor list with the cursor
at the unloaded sentinel, the target 0 does not exceed `LastSequenceNo()`
(which is 0), yet `SetPosition(0)` returns false. -/
theorem SetPosition_true_iff_in_range_counterexample :
    PositionInvariant (playlistData (-1) [] false) ∧
    ¬ (((playlistData (-1) [] false).SetPosition 0).map Prod.fst = some true ↔
        0 ≤ (playlistData (-1) [] false).LastSequenceNo) := by
  decide!

/-- C3, amended: `SetPosition` always returns, and it returns true if and only
if the descriptor list is non-empty and the target does not exceed
`LastSequenceNo()`, whatever the cursor was.  On an empty list it returns
false for every target. -/
theorem SetPosition_true_iff_nonempty_in_range (d : CPlaylistData)
    (sequenceNo : Nat) :
    ∃ (b : Bool) (d' : CPlaylistData),
      d.SetPosition sequenceNo = some (b, d') ∧
      (b = true ↔ (d.Size ≠ 0 ∧ sequenceNo ≤ d.LastSequenceNo)) := by
  by_cases hguard : d.LastSequenceNo < sequenceNo
  · refine ⟨false, d, setPosition_out_of_range d sequenceNo hguard, ?_⟩
    simp only [Bool.false_eq_true, false_iff, not_and, not_le]
    exact fun _ => hguard
  · obtain ⟨b, p, heq, hp, htrue, hfalse, -⟩ :=
      setPosition_in_range d sequenceNo (not_lt.mp hguard)
    refine ⟨b, _, heq, ?_⟩
    have hsize : (0 : Int) ≤ d.Size := by
      simp only [CPlaylistData.Size, CPlayList.size]
      omega
    cases b with
    | true =>
      have := (htrue rfl).1
      simp only [true_iff]
      exact ⟨by omega, not_lt.mp hguard⟩
    | false =>
      have := (hfalse rfl).2
      simp only [Bool.false_eq_true, false_iff, not_and]
      exact fun hne => absurd this hne

/-- C4: from an object whose cursor is the unloaded sentinel or within
`[0, Size())`, after any sequence of `SetPosition` calls, one more
`SetPosition` call returns, and if it returns false the cursor after it is not
smaller than the cursor before it. -/
theorem SetPosition_failed_call_no_regress (d : CPlaylistData)
    (h : PositionInvariant d) (targets : List Nat) (sequenceNo : Nat) :
    ∃ d1, run d (targets.map Call.SetPosition) = some d1 ∧
      ∃ (b : Bool) (d2 : CPlaylistData),
        d1.SetPosition sequenceNo = some (b, d2) ∧
        (b = false → d1.m_playlistLastPos ≤ d2.m_playlistLastPos) := by
  obtain ⟨d1, hrun, hinv⟩ := run_keeps_invariant (targets.map Call.SetPosition) d
    (Or.inl h) (setPosition_calls_keep_cursor targets d)
  refine ⟨d1, hrun, ?_⟩
  by_cases hguard : d1.LastSequenceNo < sequenceNo
  · exact ⟨false, d1, setPosition_out_of_range d1 sequenceNo hguard,
      fun _ => le_refl _⟩
  · obtain ⟨b, p, heq, -, -, hfalse, -⟩ :=
      setPosition_in_range d1 sequenceNo (not_lt.mp hguard)
    refine ⟨b, _, heq, fun hb => ?_⟩
    have := hfalse hb
    simp only [PositionInvariantOrEmpty, PositionInvariant] at hinv
    simp only
    omega

/-- Witness of C4: on an empty list, first from the sentinel (the failed call
moves the cursor from -1 to 0) and then again (the cursor stays 0). -/
theorem SetPosition_failed_call_no_regress_witness :
    PositionInvariant (playlistData (-1) [] false) ∧
    ∃ d1, run (playlistData (-1) [] false) ([0].map Call.SetPosition) = some d1 ∧
      ∃ (b : Bool) (d2 : CPlaylistData),
        d1.SetPosition 0 = some (b, d2) ∧
        (b = false → d1.m_playlistLastPos ≤ d2.m_playlistLastPos) :=
  ⟨by decide,
   SetPosition_failed_call_no_regress (playlistData (-1) [] false) (by decide) [0] 0⟩

/-! ## The position invariant -/

/-- Counterexample to C5 as stated.  From an unloaded, growing, empty playlist:
a `Load()` whose parser succeeds with an empty descriptor list leaves the
cursor 0 with `Size()` 0, outside the stated invariant; and after a `Load()`
that yields two descriptors and `SetPosition(2)`, a `Load()` whose parser
fails and leaves the list empty leaves the cursor 1 with `Size()` 0. -/
theorem position_invariant_counterexample :
    (run (playlistData (-1) [] true) [Call.Load fun _ p => (true, p)]).map
        (fun d => (d.m_playlistLastPos, d.Size, decide (PositionInvariant d)))
      = some (0, 0, false) ∧
    (run (playlistData (-1) [] true)
        [Call.Load fun _ p => (true, { p with items := [segment 1, segment 2] }),
         Call.SetPosition 2,
         Call.Load fun _ p => (false, { p with items := [] })]).map
        (fun d => (d.m_playlistLastPos, d.Size, decide (PositionInvariantOrEmpty d)))
      = some (1, 0, false) := by
  decide!

/-- C5, amended: starting from an unloaded playlist (cursor = sentinel), after
any sequence of `Load` and `SetPosition` calls in which every parser call that
fails while the cursor is at index 1 or more leaves a descriptor list that
still reaches beyond the cursor, every call returns and the cursor is the
unloaded sentinel, or an index within `[0, Size())`, or 0 on an empty
descriptor list.  Parser calls that succeed are not restricted. -/
theorem position_invariant_after_calls (d : CPlaylistData)
    (h : d.m_playlistLastPos = -1) (calls : List Call)
    (hkeep : FailedLoadsKeepCursor d calls) :
    ∃ d1, run d calls = some d1 ∧
      (d1.m_playlistLastPos = -1 ∨
        (0 ≤ d1.m_playlistLastPos ∧ d1.m_playlistLastPos < d1.Size) ∨
        (d1.m_playlistLastPos = 0 ∧ d1.Size = 0)) := by
  obtain ⟨d1, hrun, hinv⟩ :=
    run_keeps_invariant calls d (Or.inl (Or.inl h)) hkeep
  refine ⟨d1, hrun, ?_⟩
  simp only [PositionInvariantOrEmpty, PositionInvariant] at hinv
  omega

/-- Witness of C5 (amended): a refresh that replaces the list by three
descriptors, a parser call that fails and cuts the list to one descriptor
while the cursor is 0, a refresh that replaces the list by two descriptors,
and `SetPosition(2)`. -/
theorem position_invariant_after_calls_witness :
    (playlistData (-1) [] true).m_playlistLastPos = -1 ∧
    ∃ d1, run (playlistData (-1) [] true)
        [Call.Load fun _ p =>
          (true, { p with items := [segment 1, segment 2, segment 3] }),
         Call.Load fun _ p => (false, { p with items := [segment 1] }),
         Call.Load fun _ p => (true, { p with items := [segment 1, segment 2] }),
         Call.SetPosition 2] = some d1 ∧
      (d1.m_playlistLastPos = -1 ∨
        (0 ≤ d1.m_playlistLastPos ∧ d1.m_playlistLastPos < d1.Size) ∨
        (d1.m_playlistLastPos = 0 ∧ d1.Size = 0)) :=
  have h1 : step (playlistData (-1) [] true)
      (Call.Load fun _ p => (true, { p with items := [segment 1, segment 2, segment 3] }))
      = some (playlistData 0 [1, 2, 3] true) := by decide
  have h2 : step (playlistData 0 [1, 2, 3] true)
      (Call.Load fun _ p => (false, { p with items := [segment 1] }))
      = some (playlistData 0 [1] true) := by decide
  have h3 : step (playlistData 0 [1] true)
      (Call.Load fun _ p => (true, { p with items := [segment 1, segment 2] }))
      = some (playlistData 0 [1, 2] true) := by decide
  have h4 : step (playlistData 0 [1, 2] true) (Call.SetPosition 2)
      = some (playlistData 1 [1, 2] true) := by decide!
  ⟨rfl, position_invariant_after_calls (playlistData (-1) [] true) rfl _ (by
    simp only [FailedLoadsKeepCursor, h1, h2, h3, h4, and_true]
    refine ⟨?_, ?_, ?_, True.intro⟩
    · intro _ hr
      exact absurd hr (by decide)
    · intro _ _ hpos
      exact absurd hpos (by decide)
    · intro _ hr
      exact absurd hr (by decide))⟩

/-! ## Load -/

/-- C6: whenever `Load()` returns true the cursor is 0 afterwards, and so
`IsLoaded()` is true, whatever the cursor was before. -/
theorem Load_true_cursor_zero (load : String → CPlayList → Bool × CPlayList)
    (d d' : CPlaylistData) (h : d.Load load = some (true, d')) :
    d'.m_playlistLastPos = 0 ∧ d'.IsLoaded = true := by
  have hpos : d'.m_playlistLastPos = 0 := by
    cases hfin : d.IsFinished with
    | true =>
      rw [load_finished load d hfin] at h
      simp at h
    | false =>
      cases hr : (load d.m_playlistPath d.m_playList).1 with
      | false =>
        rw [load_rejected load d hfin hr] at h
        simp at h
      | true =>
        obtain ⟨td, sd, heq⟩ := load_accepted load d hfin hr
        rw [heq] at h
        simp only [Option.some.injEq, Prod.mk.injEq, true_and] at h
        rw [← h]
  exact ⟨hpos, by simp [CPlaylistData.IsLoaded, hpos]⟩

/-- Witness of C6: three descriptors, cursor on index 2, and a parser that
appends a fourth. -/
theorem Load_true_cursor_zero_witness :
    (playlistData 2 [1, 2, 3] true).Load
        (fun _ p => (true, { p with items := p.items ++ [segment 4] }))
      = some (true, playlistData 0 [1, 2, 3, 4] true) ∧
    (playlistData 0 [1, 2, 3, 4] true).m_playlistLastPos = 0 ∧
    (playlistData 0 [1, 2, 3, 4] true).IsLoaded = true :=
  have h : (playlistData 2 [1, 2, 3] true).Load
        (fun _ p => (true, { p with items := p.items ++ [segment 4] }))
      = some (true, playlistData 0 [1, 2, 3, 4] true) := by decide
  ⟨h, Load_true_cursor_zero _ _ _ h⟩

/-- C7: on a playlist for which `IsFinished()` is true, `Load()` returns false
and leaves every member, the descriptor list included, as it was, whatever the
parser would have done: the parser is not called. -/
theorem Load_finished_is_noop (d : CPlaylistData) (h : d.IsFinished = true) :
    ∀ load : String → CPlayList → Bool × CPlayList,
      d.Load load = some (false, d) :=
  fun load => load_finished load d h

/-- Witness of C7: an ended playlist with the cursor on its last descriptor,
and a parser that would have emptied the list. -/
theorem Load_finished_is_noop_witness :
    (playlistData 2 [1, 2, 3] false).IsFinished = true ∧
    (playlistData 2 [1, 2, 3] false).Load (fun _ p => (true, { p with items := [] }))
      = some (false, playlistData 2 [1, 2, 3] false) :=
  ⟨by decide, Load_finished_is_noop (playlistData 2 [1, 2, 3] false) (by decide) _⟩

/-! ## HasPendingSegments and IsFinished -/

/-- Counterexample to C8 as stated: with the cursor 0 on an empty descriptor
list (the state a failed `SetPosition(0)` leaves), the cursor differs from
`Size() - 1 = -1`, yet `HasPendingSegments()` is false. -/
theorem HasPendingSegments_iff_not_last_counterexample :
    ((playlistData (-1) [] false).SetPosition 0).map Prod.snd
      = some (playlistData 0 [] false) ∧
    ¬ ((playlistData 0 [] false).HasPendingSegments = true ↔
        (playlistData 0 [] false).m_playlistLastPos
          ≠ (playlistData 0 [] false).Size - 1) := by
  decide!

/-- C8, amended: `HasPendingSegments()` is true exactly when the cursor is
strictly below the last index, `position < Size() - 1`; for a cursor that is
not beyond the last index this is the same as not being the last index. -/
theorem HasPendingSegments_iff_before_last (d : CPlaylistData) :
    (d.HasPendingSegments = true ↔ d.m_playlistLastPos < d.Size - 1) ∧
    (d.m_playlistLastPos ≤ d.Size - 1 →
      (d.HasPendingSegments = true ↔ d.m_playlistLastPos ≠ d.Size - 1)) := by
  have hiff : d.HasPendingSegments = true ↔ d.m_playlistLastPos < d.Size - 1 := by
    simp only [CPlaylistData.HasPendingSegments, CPlaylistData.Size, decide_eq_true_eq]
  refine ⟨hiff, fun h => ?_⟩
  rw [hiff]
  omega

/-- Witness of C8 (amended): two descriptors, cursor on index 0. -/
theorem HasPendingSegments_iff_before_last_witness :
    (playlistData 0 [1, 2] false).m_playlistLastPos
      ≤ (playlistData 0 [1, 2] false).Size - 1 ∧
    ((playlistData 0 [1, 2] false).HasPendingSegments = true ↔
      (playlistData 0 [1, 2] false).m_playlistLastPos
        ≠ (playlistData 0 [1, 2] false).Size - 1) :=
  ⟨by decide,
   (HasPendingSegments_iff_before_last (playlistData 0 [1, 2] false)).2 (by decide)⟩

/-- C9: `IsFinished()` is true if and only if `HasPendingSegments()` is false
and `CanAdd()` is false; a playlist whose `CanAdd()` is true is not finished,
at any cursor. -/
theorem IsFinished_iff (d : CPlaylistData) :
    (d.IsFinished = true ↔
      (d.HasPendingSegments = false ∧ d.m_playList.CanAdd = false)) ∧
    (d.m_playList.CanAdd = true → d.IsFinished = false) := by
  simp only [CPlaylistData.IsFinished]
  cases d.HasPendingSegments <;> cases d.m_playList.CanAdd <;> simp

/-- Witness of C9: a growing playlist with the cursor on its last
descriptor. -/
theorem IsFinished_iff_witness :
    (playlistData 2 [1, 2, 3] true).m_playList.CanAdd = true ∧
    (playlistData 2 [1, 2, 3] true).IsFinished = false :=
  ⟨by decide, (IsFinished_iff (playlistData 2 [1, 2, 3] true)).2 (by decide)⟩

/-- C10: for a growing playlist with at least one descriptor and the cursor on
the last one, `HasPendingSegments()` is false and `IsFinished()` is false; a
`Load()` whose parser succeeds and yields the same descriptors followed by at
least one more returns true, and `HasPendingSegments()` is true afterwards. -/
theorem live_refresh_restores_pending (d : CPlaylistData)
    (load : String → CPlayList → Bool × CPlayList) (extra : List CFileItem)
    (hne : d.m_playList.items ≠ [])
    (hpos : d.m_playlistLastPos = d.Size - 1)
    (hgrow : d.m_playList.CanAdd = true)
    (hok : (load d.m_playlistPath d.m_playList).1 = true)
    (hitems : (load d.m_playlistPath d.m_playList).2.items = d.m_playList.items ++ extra)
    (hextra : extra ≠ []) :
    d.HasPendingSegments = false ∧ d.IsFinished = false ∧
    ∃ d', d.Load load = some (true, d') ∧
      d'.m_playList.items = d.m_playList.items ++ extra ∧
      d'.HasPendingSegments = true := by
  have hpend : d.HasPendingSegments = false := by
    simp [CPlaylistData.HasPendingSegments, hpos, CPlaylistData.Size]
  have hfin : d.IsFinished = false := by
    simp [CPlaylistData.IsFinished, hgrow]
  obtain ⟨td, sd, heq⟩ := load_accepted load d hfin hok
  refine ⟨hpend, hfin, _, heq, hitems, ?_⟩
  have h1 : 0 < d.m_playList.items.length := List.length_pos.2 hne
  have h2 : 0 < extra.length := List.length_pos.2 hextra
  simp only [CPlaylistData.HasPendingSegments, CPlayList.size, hitems,
    List.length_append, decide_eq_true_eq]
  omega

/-- Witness of C10: three segments consumed, and a refresh that appends
segment 4. -/
theorem live_refresh_restores_pending_witness :
    (playlistData 2 [1, 2, 3] true).HasPendingSegments = false ∧
    (playlistData 2 [1, 2, 3] true).IsFinished = false ∧
    ∃ d', (playlistData 2 [1, 2, 3] true).Load
        (fun _ p => (true, { p with items := p.items ++ [segment 4] }))
        = some (true, d') ∧
      d'.m_playList.items = (playlistData 2 [1, 2, 3] true).m_playList.items ++ [segment 4] ∧
      d'.HasPendingSegments = true :=
  live_refresh_restores_pending (playlistData 2 [1, 2, 3] true)
    (fun _ p => (true, { p with items := p.items ++ [segment 4] })) [segment 4]
    (by decide) (by decide) (by decide) rfl rfl (by decide)

/-! ## The item accessors -/

theorem atoiDigits_eq_foldl (ds : List Char) :
    ∀ acc : Nat, (∀ c ∈ ds, c.isDigit = true) →
      atoiDigits ds acc
        = ds.foldl (fun acc c => acc * 10 + (c.toNat - '0'.toNat)) acc := by
  induction ds with
  | nil => intro acc _; rfl
  | cons c cs ih =>
    intro acc h
    have hc : c.isDigit = true := h c (List.mem_cons_self c cs)
    simp only [atoiDigits, hc, if_true, List.foldl_cons]
    exact ih _ (fun c1 h1 => h c1 (List.mem_cons_of_mem c h1))

theorem atoiDigits_of_not_digit (c : Char) (cs : List Char) (acc : Nat)
    (h : c.isDigit = false) : atoiDigits (c :: cs) acc = acc := by
  simp [atoiDigits, h]

theorem isDigit_bounds (c : Char) (h : c.isDigit = true) :
    48 ≤ c.toNat ∧ c.toNat ≤ 57 := by
  simp only [Char.isDigit, Bool.and_eq_true, decide_eq_true_eq] at h
  exact ⟨h.1, h.2⟩

theorem isspace_of_isDigit (c : Char) (h : c.isDigit = true) : isspace c = false := by
  have hb := isDigit_bounds c h
  cases hs : isspace c with
  | false => rfl
  | true =>
    exfalso
    simp only [isspace, Bool.or_eq_true, decide_eq_true_eq] at hs
    rcases hs with ((((h1 | h1) | h1) | h1) | h1) | h1
    all_goals first
      | (subst h1; revert hb; decide)
      | omega

theorem ne_sign_of_isDigit (c : Char) (h : c.isDigit = true) : c ≠ '+' ∧ c ≠ '-' := by
  constructor <;> (intro hc; subst hc; revert h; decide)

theorem headNumber_digits (s : String) (ds : List Char) (hs : s.toList = ds)
    (hne : ds ≠ []) (hd : ∀ c ∈ ds, c.isDigit = true) :
    headNumber s = (decimalValue ds : Int) := by
  cases ds with
  | nil => exact absurd rfl hne
  | cons c cs =>
    have hc : c.isDigit = true := hd c (List.mem_cons_self c cs)
    have hsp := isspace_of_isDigit c hc
    obtain ⟨hplus, hminus⟩ := ne_sign_of_isDigit c hc
    have hdrop : (c :: cs).dropWhile isspace = c :: cs := by
      simp [List.dropWhile, hsp]
    unfold headNumber
    rw [hs, hdrop]
    split
    · next heq => exact absurd (List.cons.inj heq).1 hminus
    · next heq => exact absurd (List.cons.inj heq).1 hplus
    · rw [atoiDigits_eq_foldl _ _ hd]
      rfl

theorem headNumber_plus_digits (s : String) (ds : List Char)
    (hs : s.toList = '+' :: ds) (hd : ∀ c ∈ ds, c.isDigit = true) :
    headNumber s = (decimalValue ds : Int) := by
  have hdrop : ('+' :: ds).dropWhile isspace = '+' :: ds := by
    simp [List.dropWhile, isspace]
  unfold headNumber
  rw [hs, hdrop]
  simp only
  rw [atoiDigits_eq_foldl _ _ hd]
  rfl

theorem headNumber_minus_digits (s : String) (ds : List Char)
    (hs : s.toList = '-' :: ds) (hd : ∀ c ∈ ds, c.isDigit = true) :
    headNumber s = -(decimalValue ds : Int) := by
  have hdrop : ('-' :: ds).dropWhile isspace = '-' :: ds := by
    simp [List.dropWhile, isspace]
  unfold headNumber
  rw [hs, hdrop]
  simp only
  rw [atoiDigits_eq_foldl _ _ hd]
  rfl

/-- A number in the range of `int` comes out of `atoi` as it went in. -/
theorem atoi_of_headNumber_in_range (s : String) (v : Int) (hv : headNumber s = v)
    (hlo : -(2 : Int) ^ 31 ≤ v) (hhi : v < (2 : Int) ^ 31) : atoi s = v := by
  simp only [atoi, strtol, toInt32, hv]
  norm_num at hlo hhi ⊢
  omega

/-- On a well-formed integer text `atoi` returns its value. -/
theorem atoi_of_integer_text (s : String) (v : Int) (h : IsIntegerText s.toList v) :
    atoi s = v := by
  obtain ⟨⟨hlo, hhi⟩, ds, hne, hd, hcase⟩ := h
  refine atoi_of_headNumber_in_range s v ?_ hlo hhi
  rcases hcase with ⟨hs, hv⟩ | ⟨hs, hv⟩ | ⟨hs, hv⟩
  · rw [hv]; exact headNumber_digits s ds hs hne hd
  · rw [hv]; exact headNumber_plus_digits s ds hs hd
  · rw [hv]; exact headNumber_minus_digits s ds hs hd

theorem dropWhile_isspace_append (ws rest : List Char)
    (hws : ∀ c ∈ ws, isspace c = true) :
    (ws ++ rest).dropWhile isspace = rest.dropWhile isspace := by
  induction ws with
  | nil => rfl
  | cons c cs ih =>
    have hc : isspace c = true := hws c (List.mem_cons_self c cs)
    simp only [List.cons_append, List.dropWhile_cons, hc, if_true]
    exact ih (fun c1 h1 => hws c1 (List.mem_cons_of_mem c h1))

theorem atoiDigits_of_no_digit (tail : List Char)
    (h : ∀ c rest, tail = c :: rest → c.isDigit = false) :
    atoiDigits tail 0 = 0 := by
  cases tail with
  | nil => rfl
  | cons c rest => exact atoiDigits_of_not_digit c rest 0 (h c rest rfl)

/-- On a text with no number at its head `atoi` returns 0. -/
theorem atoi_of_starts_without_number (s : String)
    (h : StartsWithoutNumber s.toList) : atoi s = 0 := by
  obtain ⟨ws, sign, tail, hs, hws, hsign, htail⟩ := h
  refine atoi_of_headNumber_in_range s 0 ?_ (by norm_num) (by norm_num)
  have hdig : atoiDigits tail 0 = 0 :=
    atoiDigits_of_no_digit tail (fun c rest hc => (htail c rest hc).1)
  unfold headNumber
  rw [hs, List.append_assoc, dropWhile_isspace_append ws _ hws]
  rcases hsign with hsign | hsign | hsign
  · subst hsign
    cases tail with
    | nil => rfl
    | cons c rest =>
      obtain ⟨hnd, hrest⟩ := htail c rest rfl
      obtain ⟨hsp, hplus, hminus⟩ := hrest rfl
      have hdrop : ([] ++ c :: rest).dropWhile isspace = c :: rest := by
        simp [List.dropWhile, hsp]
      rw [hdrop]
      split
      · next heq => exact absurd (List.cons.inj heq).1 hminus
      · next heq => exact absurd (List.cons.inj heq).1 hplus
      · rw [atoiDigits_of_not_digit c rest 0 hnd]
        rfl
  · subst hsign
    have hdrop : (['+'] ++ tail).dropWhile isspace = '+' :: tail := by
      simp [List.dropWhile, isspace]
    rw [hdrop]
    simp only
    rw [hdig]
    rfl
  · subst hsign
    have hdrop : (['-'] ++ tail).dropWhile isspace = '-' :: tail := by
      simp [List.dropWhile, isspace]
    rw [hdrop]
    simp only
    rw [hdig]
    rfl

/-- `Load()` when `m_playList->Load` is reached, returns true and leaves a
non-empty descriptor list. -/
theorem load_accepted_nonempty (load : String → CPlayList → Bool × CPlayList)
    (d : CPlaylistData) (first : CFileItem) (rest : List CFileItem)
    (h : d.IsFinished = false)
    (hr : (load d.m_playlistPath d.m_playList).1 = true)
    (hitems : (load d.m_playlistPath d.m_playList).2.items = first :: rest) :
    d.Load load = some (true,
      { d with
        m_playList := (load d.m_playlistPath d.m_playList).2
        m_playlistLastPos := 0
        m_targetDuration := atoi (first.GetProperty "m3u8-targetDurationInSec")
        m_startDate := atoi (first.GetProperty "m3u8-startDate") }) := by
  have hsize : (load d.m_playlistPath d.m_playList).2.size ≠ 0 := by
    simp only [CPlayList.size, hitems, List.length_cons]
    omega
  have hat : (load d.m_playlistPath d.m_playList).2.at 0 = some first := by
    simp [CPlayList.at, hitems]
  simp [CPlaylistData.Load, h, hr, CPlaylistData.Size, hsize,
    CPlaylistData.FirstItem, hat]

/-! ## Load: target duration and start date -/

/-- Counterexample to C12 as stated.  A successful `Load()` whose first
descriptor carries the target duration text "12abc", which is not a
well-formed integer, sets `m_targetDuration` to 12, not 0.  And a successful
`Load()` that leaves the descriptor list empty, so that there is no first
descriptor, leaves `m_targetDuration` at its earlier value 10, not 0. -/
theorem Load_duration_counterexample :
    ((playlistData (-1) [] true).Load
        (fun _ p => (true, { p with items := [segmentWith 1 (some "12abc") none] }))).map
        (fun r => (r.1, r.2.m_targetDuration))
      = some (true, 12) ∧
    (playlistData (-1) [] true).Load
        (fun _ p => (true, { p with items := [segmentWith 1 (some "10") none] }))
      = some (true, { playlistData 0 [] true with
          m_targetDuration := 10
          m_playList := { items := [segmentWith 1 (some "10") none], canAdd := true }
        }) ∧
    (CPlaylistData.Load (fun _ p => (true, { p with items := [] }))
        { playlistData 0 [] true with
          m_targetDuration := 10
          m_playList := { items := [segmentWith 1 (some "10") none], canAdd := true }
        }).map
        (fun r => (r.1, r.2.FirstItem, r.2.m_targetDuration))
      = some (true, none, 10) := by
  decide

/-- C12, amended: after a successful `Load()` that leaves a non-empty
descriptor list, `m_targetDuration` and `m_startDate` are `atoi` of the texts
of the first descriptor's "m3u8-targetDurationInSec" and "m3u8-startDate"
properties.  So each is the integer value when the text is a well-formed
integer in the range of `int`, and 0 when the property is absent or its text
has no number at its head (after leading white space and at most one sign it
ends, or goes on with a character that is not a digit). -/
theorem Load_true_duration_and_date
    (load : String → CPlayList → Bool × CPlayList) (d d' : CPlaylistData)
    (first : CFileItem) (rest : List CFileItem)
    (h : d.Load load = some (true, d'))
    (hitems : d'.m_playList.items = first :: rest) :
    (d'.m_targetDuration = atoi (first.GetProperty "m3u8-targetDurationInSec") ∧
      d'.m_startDate = atoi (first.GetProperty "m3u8-startDate")) ∧
    (∀ (text : String) (v : Int), first.targetDurationInSec = some text →
      IsIntegerText text.toList v → d'.m_targetDuration = v) ∧
    (∀ (text : String) (v : Int), first.startDate = some text →
      IsIntegerText text.toList v → d'.m_startDate = v) ∧
    (first.targetDurationInSec = none → d'.m_targetDuration = 0) ∧
    (first.startDate = none → d'.m_startDate = 0) ∧
    (∀ text : String, first.targetDurationInSec = some text →
      StartsWithoutNumber text.toList → d'.m_targetDuration = 0) ∧
    (∀ text : String, first.startDate = some text →
      StartsWithoutNumber text.toList → d'.m_startDate = 0) := by
  have hmain : d'.m_targetDuration = atoi (first.GetProperty "m3u8-targetDurationInSec") ∧
      d'.m_startDate = atoi (first.GetProperty "m3u8-startDate") := by
    cases hfin : d.IsFinished with
    | true =>
      rw [load_finished load d hfin] at h
      simp at h
    | false =>
      cases hr : (load d.m_playlistPath d.m_playList).1 with
      | false =>
        rw [load_rejected load d hfin hr] at h
        simp at h
      | true =>
        obtain ⟨td, sd, heq⟩ := load_accepted load d hfin hr
        have hd' := h
        rw [heq] at hd'
        simp only [Option.some.injEq, Prod.mk.injEq, true_and] at hd'
        have hlist : (load d.m_playlistPath d.m_playList).2.items = first :: rest := by
          rw [← hitems, ← hd']
        rw [load_accepted_nonempty load d first rest hfin hr hlist] at h
        simp only [Option.some.injEq, Prod.mk.injEq, true_and] at h
        rw [← h]
        exact ⟨rfl, rfl⟩
  have hT : ∀ text, first.targetDurationInSec = some text →
      first.GetProperty "m3u8-targetDurationInSec" = text := by
    intro text ht
    simp [CFileItem.GetProperty, ht]
  have hS : ∀ text, first.startDate = some text →
      first.GetProperty "m3u8-startDate" = text := by
    intro text ht
    simp [CFileItem.GetProperty, ht]
  have hT0 : first.targetDurationInSec = none →
      first.GetProperty "m3u8-targetDurationInSec" = "" := by
    intro ht
    simp [CFileItem.GetProperty, ht]
  have hS0 : first.startDate = none → first.GetProperty "m3u8-startDate" = "" := by
    intro ht
    simp [CFileItem.GetProperty, ht]
  have hzero : atoi "" = 0 := by decide
  refine ⟨hmain, ?_, ?_, ?_, ?_, ?_, ?_⟩
  · intro text v ht hv
    rw [hmain.1, hT text ht]
    exact atoi_of_integer_text text v hv
  · intro text v ht hv
    rw [hmain.2, hS text ht]
    exact atoi_of_integer_text text v hv
  · intro ht
    rw [hmain.1, hT0 ht, hzero]
  · intro ht
    rw [hmain.2, hS0 ht, hzero]
  · intro text ht hv
    rw [hmain.1, hT text ht]
    exact atoi_of_starts_without_number text hv
  · intro text ht hv
    rw [hmain.2, hS text ht]
    exact atoi_of_starts_without_number text hv

/-- Witness of C12 (amended): a refresh whose first descriptor carries the
texts "10" and "-5". -/
theorem Load_true_duration_and_date_witness :
    ∃ d', (playlistData (-1) [] true).Load
        (fun _ p => (true, { p with items := [segmentWith 1 (some "10") (some "-5")] }))
        = some (true, d') ∧
      d'.m_playList.items = [segmentWith 1 (some "10") (some "-5")] ∧
      d'.m_targetDuration = 10 ∧ d'.m_startDate = -5 :=
  have h : (playlistData (-1) [] true).Load
        (fun _ p => (true, { p with items := [segmentWith 1 (some "10") (some "-5")] }))
      = some (true, { playlistData 0 [] true with
          m_targetDuration := 10
          m_startDate := -5
          m_playList := { items := [segmentWith 1 (some "10") (some "-5")], canAdd := true }
        }) := by decide
  have t := Load_true_duration_and_date _ _ _ (segmentWith 1 (some "10") (some "-5")) [] h rfl
  ⟨_, h, rfl, t.2.1 "10" 10 rfl ⟨by decide, ['1', '0'], by decide, by decide, Or.inl ⟨rfl, by decide⟩⟩,
    t.2.2.1 "-5" (-5) rfl ⟨by decide, ['5'], by decide, by decide,
      Or.inr (Or.inr ⟨rfl, by decide⟩)⟩⟩

/-! ## SetPosition on a playlist with increasing sequence numbers -/

theorem pairwise_getElem?_lt {α : Type} (R : α → α → Prop) (l : List α)
    (h : l.Pairwise R) (i j : Nat) (a b : α) (hi : l[i]? = some a)
    (hj : l[j]? = some b) (hij : i < j) : R a b := by
  obtain ⟨hi1, hi2⟩ := List.getElem?_eq_some.1 hi
  obtain ⟨hj1, hj2⟩ := List.getElem?_eq_some.1 hj
  rw [← hi2, ← hj2]
  exact List.pairwise_iff_getElem.1 h i j hi1 hj1 hij

/-- Counterexample to C14 as stated, where `unsigned long` is wider than
`unsigned int`: the sequence numbers 5 and 2^32 + 3 are strictly increasing;
the second one, passed to the `unsigned int` parameter of `SetPosition`,
arrives as 3, and the call returns true with the cursor on index 0, not 1.
(Without that conversion the target exceeds `LastSequenceNo()`, which is 3,
and the call returns false.) -/
theorem SetPosition_round_trip_counterexample :
    ((playlistData (-1) [5, 4294967299] false).m_playList.items.map
        fun item => item.playlistSequenceNo).Pairwise (· < ·) ∧
    (playlistData (-1) [5, 4294967299] false).m_playList.items[1]?
      = some (segment 4294967299) ∧
    ((playlistData (-1) [5, 4294967299] false).SetPosition
        ((segment 4294967299).playlistSequenceNo % 2 ^ 32)).map
        (fun r => (r.1, r.2.m_playlistLastPos))
      = some (true, 0) ∧
    ((playlistData (-1) [5, 4294967299] false).SetPosition
        (segment 4294967299).playlistSequenceNo).map
        (fun r => (r.1, r.2.m_playlistLastPos))
      = some (false, -1) := by
  decide!

/-- C14, amended: on a descriptor list whose sequence numbers are strictly
increasing and all below 2^32 (the range of the `unsigned int` parameter of
`SetPosition`), for every index `i` within `[0, Size())`,
`SetPosition(sequence number of descriptor i)` returns true, leaves the cursor
exactly at `i` and changes nothing else, and `CurrentSequenceNo()` then equals
that sequence number, whatever the cursor was before. -/
theorem SetPosition_round_trip (d : CPlaylistData) (i : Nat) (item : CFileItem)
    (hinc : d.m_playList.items.Pairwise
      (fun a b => a.playlistSequenceNo < b.playlistSequenceNo))
    (hrange : ∀ it ∈ d.m_playList.items, it.playlistSequenceNo < 2 ^ 32)
    (hi : d.m_playList.items[i]? = some item) :
    d.SetPosition item.playlistSequenceNo
      = some (true, { d with m_playlistLastPos := (i : Int) }) ∧
    ({ d with m_playlistLastPos := (i : Int) } : CPlaylistData).CurrentSequenceNo
      = item.playlistSequenceNo := by
  obtain ⟨hilt, -⟩ := List.getElem?_eq_some.1 hi
  have hmem : item ∈ d.m_playList.items := List.getElem?_mem hi
  have hne : d.Size ≠ 0 := by
    simp only [CPlaylistData.Size, CPlayList.size]
    omega
  have hsizeeq : d.Size = (d.m_playList.items.length : Int) := rfl
  obtain ⟨last, hlastat, hLast⟩ := lastSequenceNo_of_nonempty d hne
  obtain ⟨-, hlastget⟩ := (at_eq_some_iff _ _ _).1 hlastat
  have hlastidx : (d.Size - 1).toNat = d.m_playList.items.length - 1 := by omega
  rw [hlastidx] at hlastget
  have hlastmem : last ∈ d.m_playList.items := List.getElem?_mem hlastget
  have hLast' : d.LastSequenceNo = last.playlistSequenceNo := by
    rw [hLast]
    exact Nat.mod_eq_of_lt (hrange last hlastmem)
  have hle : item.playlistSequenceNo ≤ d.LastSequenceNo := by
    rw [hLast']
    by_cases hlt : i < d.m_playList.items.length - 1
    · exact Nat.le_of_lt (pairwise_getElem?_lt _ _ hinc i _ item last hi hlastget hlt)
    · have hieq : i = d.m_playList.items.length - 1 := by omega
      rw [hieq, hlastget] at hi
      cases hi
      exact le_refl _
  obtain ⟨b, p, heq, hp, htrue, hfalse, hskip⟩ :=
    setPosition_in_range d item.playlistSequenceNo hle
  have hb : b = true := by
    cases b with
    | true => rfl
    | false => exact absurd (hfalse rfl).2 hne
  subst hb
  obtain ⟨hplt, itp, hitp, hseq⟩ := htrue rfl
  obtain ⟨-, hitpget⟩ := (at_eq_some_iff _ _ _).1 hitp
  have hati : d.m_playList.at (i : Int) = some item := by
    simp [CPlayList.at, hi]
  have hpi : p = (i : Int) := by
    rcases Nat.lt_trichotomy p.toNat i with hlt | heq1 | hgt
    · have := pairwise_getElem?_lt _ _ hinc p.toNat i itp item hitpget hi hlt
      omega
    · omega
    · have := hskip (i : Int) item (by omega) hati
      omega
  rw [hpi] at heq hplt
  refine ⟨heq, ?_⟩
  have hcur : ({ d with m_playlistLastPos := (i : Int) } : CPlaylistData).CurrentItem
      = some item := by
    simp only [CPlaylistData.CurrentItem, CPlaylistData.Size] at hplt ⊢
    simp [hplt, hati]
  simp only [CPlaylistData.CurrentSequenceNo, hcur, GetPropertyULong_sequenceNo]
  exact Nat.mod_eq_of_lt (hrange item hmem)

/-- Witness of C14 (amended): the sequence numbers 1, 2, 5, 7, index 2, and
the cursor on index 3 before the call. -/
theorem SetPosition_round_trip_witness :
    (playlistData 3 [1, 2, 5, 7] false).SetPosition 5
      = some (true, playlistData 2 [1, 2, 5, 7] false) ∧
    (playlistData 2 [1, 2, 5, 7] false).CurrentSequenceNo = 5 :=
  SetPosition_round_trip (playlistData 3 [1, 2, 5, 7] false) 2 (segment 5)
    (by decide) (by decide) (by decide)

/-! ## Termination and safety of SetPosition -/

theorem iterations_le (sequenceNo : Nat) (k : Nat) :
    ∀ d : CPlaylistData, (d.Size - d.m_playlistLastPos).toNat = k →
      CPlaylistData.SetPosition.iterations sequenceNo d ≤ k := by
  induction k with
  | zero =>
    intro d hk
    have hge : ¬ d.m_playlistLastPos < d.Size := by omega
    rw [CPlaylistData.SetPosition.iterations]
    simp [hge]
  | succ k ih =>
    intro d hk
    have hlt : d.m_playlistLastPos < d.Size := by omega
    have hnext := ih { d with m_playlistLastPos := d.m_playlistLastPos + 1 }
      (by simp only [CPlaylistData.Size] at *; omega)
    rw [CPlaylistData.SetPosition.iterations]
    simp only [hlt, if_true]
    split
    · omega
    · split
      · omega
      · omega

/-- C15: `SetPosition` always returns a result, for every descriptor list,
prior cursor and target: no `CurrentItem()` dereferenced in its loop is null;
the body of the loop is entered at most `Size()` times; and wherever the
cursor is within `[0, Size())`, `CurrentItem()` is a present descriptor. -/
theorem SetPosition_total_and_safe (d : CPlaylistData) (sequenceNo : Nat) :
    (∃ (b : Bool) (d' : CPlaylistData), d.SetPosition sequenceNo = some (b, d')) ∧
    ((CPlaylistData.SetPosition.iterations sequenceNo
        { d with m_playlistLastPos := 0 } : Int) ≤ d.Size) ∧
    (∀ c : CPlaylistData, 0 ≤ c.m_playlistLastPos → c.m_playlistLastPos < c.Size →
      ∃ item, c.CurrentItem = some item) := by
  refine ⟨?_, ?_, ?_⟩
  · by_cases hguard : d.LastSequenceNo < sequenceNo
    · exact ⟨false, d, setPosition_out_of_range d sequenceNo hguard⟩
    · obtain ⟨b, p, heq, -⟩ := setPosition_in_range d sequenceNo (not_lt.mp hguard)
      exact ⟨b, _, heq⟩
  · have h := iterations_le sequenceNo _ { d with m_playlistLastPos := 0 } rfl
    have hsize : (0 : Int) ≤ d.Size := by
      simp only [CPlaylistData.Size, CPlayList.size]
      omega
    simp only [CPlaylistData.Size] at h hsize ⊢
    omega
  · intro c h0 h1
    obtain ⟨item, hitem⟩ := at_isSome c.m_playList c.m_playlistLastPos h0 h1
    exact ⟨item, by simp [CPlaylistData.CurrentItem, h0, h1, hitem]⟩

/-- Witness of C15: on the sequence numbers 1, 2, 5, 7 with the cursor on
index 1, the cursor is in range and `CurrentItem()` is present. -/
theorem SetPosition_total_and_safe_witness :
    (0 : Int) ≤ (playlistData 1 [1, 2, 5, 7] false).m_playlistLastPos ∧
    (playlistData 1 [1, 2, 5, 7] false).m_playlistLastPos
      < (playlistData 1 [1, 2, 5, 7] false).Size ∧
    ∃ item, (playlistData 1 [1, 2, 5, 7] false).CurrentItem = some item :=
  ⟨by decide, by decide,
   (SetPosition_total_and_safe (playlistData 1 [1, 2, 5, 7] false) 7).2.2
     (playlistData 1 [1, 2, 5, 7] false) (by decide) (by decide)⟩

/-! ## Further properties of SetPosition -/

/-- What a true result of `SetPosition` says about the cursor it leaves. -/
theorem setPosition_true_spec (d d' : CPlaylistData) (sequenceNo : Nat)
    (h : d.SetPosition sequenceNo = some (true, d')) :
    d'.m_playList = d.m_playList ∧ 0 ≤ d'.m_playlistLastPos ∧
    (∃ item, d.m_playList.at d'.m_playlistLastPos = some item ∧
      sequenceNo ≤ item.playlistSequenceNo) ∧
    (∀ (j : Int) (item : CFileItem), j < d'.m_playlistLastPos →
      d.m_playList.at j = some item → item.playlistSequenceNo < sequenceNo) := by
  by_cases hguard : d.LastSequenceNo < sequenceNo
  · rw [setPosition_out_of_range d sequenceNo hguard] at h
    simp at h
  · obtain ⟨b, p, heq, hp, htrue, -, hskip⟩ :=
      setPosition_in_range d sequenceNo (not_lt.mp hguard)
    rw [heq] at h
    simp only [Option.some.injEq, Prod.mk.injEq] at h
    obtain ⟨hb, hd⟩ := h
    subst hd
    exact ⟨rfl, hp, (htrue hb).2, hskip⟩

/-- C16: on an empty descriptor list `LastSequenceNo()` is 0, so the target 0
passes the range guard; `SetPosition(0)` returns false and leaves the cursor
at 0 with nothing else changed.  After the call `IsLoaded()` is true and
`CurrentItem()` is null, while at the unloaded sentinel `IsLoaded()` was
false. -/
theorem SetPosition_zero_on_empty_list (d : CPlaylistData)
    (h : d.m_playList.items = []) :
    d.LastSequenceNo = 0 ∧
    d.SetPosition 0 = some (false, { d with m_playlistLastPos := 0 }) ∧
    ({ d with m_playlistLastPos := 0 } : CPlaylistData).IsLoaded = true ∧
    ({ d with m_playlistLastPos := 0 } : CPlaylistData).CurrentItem = none ∧
    (d.m_playlistLastPos = -1 → d.IsLoaded = false) := by
  have hsize : d.Size = 0 := by
    simp [CPlaylistData.Size, CPlayList.size, h]
  have hlast := lastSequenceNo_of_empty d hsize
  refine ⟨hlast, ?_, by simp [CPlaylistData.IsLoaded], ?_, ?_⟩
  · obtain ⟨b, p, heq, hp, htrue, hfalse, -⟩ :=
      setPosition_in_range d 0 (Nat.zero_le _)
    cases b with
    | true =>
      have := (htrue rfl).1
      omega
    | false =>
      rw [(hfalse rfl).1] at heq
      exact heq
  · simp [CPlaylistData.CurrentItem, CPlaylistData.Size, CPlayList.size, h]
  · intro hpos
    simp [CPlaylistData.IsLoaded, hpos]

/-- Witness of C16: the unloaded, empty playlist. -/
theorem SetPosition_zero_on_empty_list_witness :
    (playlistData (-1) [] false).IsLoaded = false ∧
    (playlistData (-1) [] false).SetPosition 0 = some (false, playlistData 0 [] false) ∧
    (playlistData 0 [] false).IsLoaded = true ∧
    (playlistData 0 [] false).CurrentItem = none :=
  have t := SetPosition_zero_on_empty_list (playlistData (-1) [] false) rfl
  ⟨t.2.2.2.2 rfl, t.2.1, t.2.2.1, t.2.2.2.1⟩

/-- C17: `SetPosition` is monotone in its target.  On one descriptor list,
sorted or not, and whatever the cursors before the calls, when
`SetPosition(s1)` and `SetPosition(s2)` both return true and `s1 <= s2`, the
cursor reached for `s1` is at most the cursor reached for `s2`. -/
theorem SetPosition_monotone_in_target (d1 d2 d1' d2' : CPlaylistData)
    (s1 s2 : Nat) (hlist : d1.m_playList = d2.m_playList) (hle : s1 ≤ s2)
    (h1 : d1.SetPosition s1 = some (true, d1'))
    (h2 : d2.SetPosition s2 = some (true, d2')) :
    d1'.m_playlistLastPos ≤ d2'.m_playlistLastPos := by
  obtain ⟨-, -, -, hskip1⟩ := setPosition_true_spec d1 d1' s1 h1
  obtain ⟨-, -, ⟨item, hitem, hseq⟩, -⟩ := setPosition_true_spec d2 d2' s2 h2
  by_contra hlt
  rw [← hlist] at hitem
  have := hskip1 d2'.m_playlistLastPos item (not_le.mp hlt) hitem
  omega

/-- Witness of C17: on the unsorted sequence numbers 1, 4, 2, 9 the targets
2 and 5 reach the indices 1 and 3. -/
theorem SetPosition_monotone_in_target_witness :
    (playlistData (-1) [1, 4, 2, 9] false).SetPosition 2
      = some (true, playlistData 1 [1, 4, 2, 9] false) ∧
    (playlistData 0 [1, 4, 2, 9] false).SetPosition 5
      = some (true, playlistData 3 [1, 4, 2, 9] false) ∧
    (playlistData 1 [1, 4, 2, 9] false).m_playlistLastPos
      ≤ (playlistData 3 [1, 4, 2, 9] false).m_playlistLastPos :=
  have h1 : (playlistData (-1) [1, 4, 2, 9] false).SetPosition 2
      = some (true, playlistData 1 [1, 4, 2, 9] false) := by decide!
  have h2 : (playlistData 0 [1, 4, 2, 9] false).SetPosition 5
      = some (true, playlistData 3 [1, 4, 2, 9] false) := by decide!
  ⟨h1, h2, SetPosition_monotone_in_target _ _ _ _ 2 5 rfl (by decide) h1 h2⟩

/-- A call of `SetPosition` whose target passes the range guard does not
depend on the cursor before the call. -/
theorem setPosition_forgets_cursor (d : CPlaylistData) (sequenceNo : Nat)
    (c : Int) :
    ({ d with m_playlistLastPos := c } : CPlaylistData).LastSequenceNo
      = d.LastSequenceNo ∧
    (sequenceNo ≤ d.LastSequenceNo →
      ({ d with m_playlistLastPos := c } : CPlaylistData).SetPosition sequenceNo
        = d.SetPosition sequenceNo) := by
  have hlast : ({ d with m_playlistLastPos := c } : CPlaylistData).LastSequenceNo
      = d.LastSequenceNo := rfl
  refine ⟨hlast, fun h => ?_⟩
  simp only [CPlaylistData.SetPosition, hlast, not_lt.mpr h, if_false]

/-- C18: for a target that does not exceed `LastSequenceNo()`, the result of
`SetPosition`, return value and object alike, is the same from every prior
cursor; so a second `SetPosition` call with the same target returns the same
value and leaves the same cursor as the first. -/
theorem SetPosition_idempotent (d : CPlaylistData) (sequenceNo : Nat)
    (h : sequenceNo ≤ d.LastSequenceNo) :
    (∀ c : Int,
      ({ d with m_playlistLastPos := c } : CPlaylistData).SetPosition sequenceNo
        = d.SetPosition sequenceNo) ∧
    ∃ (b : Bool) (d' : CPlaylistData),
      d.SetPosition sequenceNo = some (b, d') ∧
      d'.SetPosition sequenceNo = some (b, d') := by
  have hforget := fun c => (setPosition_forgets_cursor d sequenceNo c).2 h
  refine ⟨hforget, ?_⟩
  obtain ⟨b, p, heq, -⟩ := setPosition_in_range d sequenceNo h
  exact ⟨b, _, heq, by rw [hforget p]; exact heq⟩

/-- Witness of C18: the sequence numbers 1, 2, 5, 7 and the target 3, from
the cursor 3 and again from the cursor 2 that the first call leaves. -/
theorem SetPosition_idempotent_witness :
    3 ≤ (playlistData 3 [1, 2, 5, 7] false).LastSequenceNo ∧
    (playlistData 2 [1, 2, 5, 7] false).SetPosition 3
      = (playlistData 3 [1, 2, 5, 7] false).SetPosition 3 ∧
    ∃ (b : Bool) (d' : CPlaylistData),
      (playlistData 3 [1, 2, 5, 7] false).SetPosition 3 = some (b, d') ∧
      d'.SetPosition 3 = some (b, d') :=
  have t := SetPosition_idempotent (playlistData 3 [1, 2, 5, 7] false) 3 (by decide)
  ⟨by decide, t.1 2, t.2⟩

/-! ## An empty playlist that cannot grow -/

/-- C19: on an empty descriptor list whose `CanAdd()` is false, at every
cursor from the unloaded sentinel -1 upwards, `IsFinished()` is true (at the
sentinel `IsLoaded()` is false); every `Load()` returns false and leaves the
object as it was whatever the parser would have done, so the parser is not
called; and after any number of `Load()` calls the object, its unloaded
cursor included, is unchanged. -/
theorem empty_ended_playlist_stays_unloaded (d : CPlaylistData)
    (hempty : d.m_playList.items = []) (hadd : d.m_playList.CanAdd = false)
    (hpos : -1 ≤ d.m_playlistLastPos) :
    d.IsFinished = true ∧
    (d.m_playlistLastPos = -1 → d.IsLoaded = false) ∧
    (∀ load : String → CPlayList → Bool × CPlayList,
      d.Load load = some (false, d)) ∧
    (∀ loads : List (String → CPlayList → Bool × CPlayList),
      run d (loads.map Call.Load) = some d) := by
  have hfin : d.IsFinished = true := by
    have hpend : d.HasPendingSegments = false := by
      simp only [CPlaylistData.HasPendingSegments, CPlayList.size, hempty,
        List.length_nil, decide_eq_false_iff_not]
      omega
    simp [CPlaylistData.IsFinished, hpend, hadd]
  refine ⟨hfin, ?_, fun load => load_finished load d hfin, ?_⟩
  · intro h
    simp [CPlaylistData.IsLoaded, h]
  · intro loads
    induction loads with
    | nil => rfl
    | cons load rest ih =>
      simp only [List.map_cons, run, step, load_finished load d hfin, Option.map_some',
        Option.some_bind]
      exact ih

/-- Witness of C19: the unloaded, empty playlist that cannot grow, and two
parsers that would have filled it. -/
theorem empty_ended_playlist_stays_unloaded_witness :
    (playlistData (-1) [] false).IsFinished = true ∧
    (playlistData (-1) [] false).IsLoaded = false ∧
    (playlistData (-1) [] false).Load
        (fun _ p => (true, { p with items := [segment 1] }))
      = some (false, playlistData (-1) [] false) ∧
    run (playlistData (-1) [] false)
        ([fun _ p => (true, { p with items := [segment 1] }),
          fun _ p => (true, { p with items := [segment 1, segment 2] })].map Call.Load)
      = some (playlistData (-1) [] false) :=
  have t := empty_ended_playlist_stays_unloaded (playlistData (-1) [] false) rfl rfl
    (by decide)
  ⟨t.1, t.2.1 rfl, t.2.2.1 _, t.2.2.2 _⟩

end XFILE
